import Mathlib

/-!
# Verification of the IAV BusinessCard profile pipeline

A shallow embedding of the client script of the BusinessCard repository
(`app.js` together with its companion `profiles.js` loader): URL-based
profile resolution, the memoising profile store, alias resolution over the
profile directory, vCard generation, and the card renderer's view selection.

JavaScript strings are modelled as Lean `String`s (sequences of characters);
the JS string operations used by the script (`split`, `trim`, `substring`,
regex replaces on anchored literal patterns) are reproduced as explicit
recursive functions over `List Char`.  JS `undefined` is modelled with
`Option`, and the truthiness tests the script performs on strings and on
fetched JSON records are modelled exactly (the empty string and JSON `null`
are falsy).  `String.toLowerCase`/`toUpperCase` are modelled on the ASCII
range, which covers every comparison the script performs against its ASCII
literals and slugs.
-/

namespace BusinessCard

/-- CRLF line separator used by the vCard builder. -/
def CRLF : String := "\r\n"

/-- The characters of the JS `\s` class that the script can meet
(ASCII whitespace plus NBSP); used by `trim` and `split(/\s+/)`. -/
def jsIsSpace (c : Char) : Bool :=
  c = ' ' || c = '\t' || c = '\n' || c = '\r' || c = '\x0b' || c = '\x0c' || c = ' '

/-- JS `String.prototype.trim`: drop whitespace from both ends. -/
def jsTrim (l : List Char) : List Char :=
  ((l.dropWhile jsIsSpace).reverse.dropWhile jsIsSpace).reverse

/-- JS `str.split(sep)` for a one-character separator: `"".split` gives
`[""]`, separators at the ends give empty segments. -/
def splitOnChar (sep : Char) : List Char → List (List Char)
  | [] => [[]]
  | c :: rest =>
    if c = sep then [] :: splitOnChar sep rest
    else
      match splitOnChar sep rest with
      | seg :: segs => (c :: seg) :: segs
      | [] => [[c]]

/-- JS `str.split(/\s+/)`: segments between maximal whitespace runs, with an
empty segment at an end that starts or finishes with whitespace, and `[""]`
for the empty string. -/
def jsSplitWs : List Char → List (List Char)
  | [] => [[]]
  | c :: rest =>
    if jsIsSpace c then
      match rest with
      | [] => [] :: [[]]
      | c2 :: _ => if jsIsSpace c2 then jsSplitWs rest else [] :: jsSplitWs rest
    else
      match jsSplitWs rest with
      | seg :: segs => (c :: seg) :: segs
      | [] => [[c]]

theorem jsSplitWs_cons (c : Char) (rest : List Char) :
    jsSplitWs (c :: rest) =
      if jsIsSpace c then
        match rest with
        | [] => [] :: [[]]
        | c2 :: _ => if jsIsSpace c2 then jsSplitWs rest else [] :: jsSplitWs rest
      else
        match jsSplitWs rest with
        | seg :: segs => (c :: seg) :: segs
        | [] => [[c]] := rfl

/-- JS `Array.prototype.join(sep)`. -/
def joinWith (sep : String) : List String → String
  | [] => ""
  | [x] => x
  | x :: y :: t => x ++ sep ++ joinWith sep (y :: t)

/-- Defaulting read of an optional field, as in `profile.field || ''`
(the empty string is falsy, so the default agrees). -/
def jsOrEmpty : Option String → String
  | some s => s
  | none => ""

@[simp] theorem data_append (a b : String) : (a ++ b).data = a.data ++ b.data := rfl

@[simp] theorem mk_data (s : String) : String.mk s.data = s := rfl

/-- Function `getProfileFromURL` from `app.js`: take the hash fragment
(`window.location.hash.substring(1)`) when non-empty; otherwise strip one
trailing slash from the pathname, take the last `/`-separated segment, and
accept it only when it is non-empty, differs from `index.html`, and
contains no dot.  The directory of known profiles is not consulted.
-/
def getProfileFromURL (locationHash pathname : String) : Option String :=
  let hash := locationHash.data.drop 1
  if hash ≠ [] then some (String.mk hash)
  else
    let path := pathname.data
    let cleanPath := if path.getLast? = some '/' then path.dropLast else path
    let lastSegment := (splitOnChar '/' cleanPath).getLastD []
    if lastSegment ≠ [] ∧ lastSegment ≠ "index.html".data ∧ lastSegment.contains '.' = false then
      some (String.mk lastSegment)
    else none

/-- The path-segment rule of the resolver contract, as the spec words it:
the final path segment, excluding the empty segment, the default document
name, and anything containing a dot. -/
def specPathCandidate (pathname : String) : Option String :=
  let cleanPath :=
    if pathname.data.getLast? = some '/' then pathname.data.dropLast else pathname.data
  let seg := (splitOnChar '/' cleanPath).getLastD []
  if seg = [] then none
  else if seg = "index.html".data then none
  else if seg.contains '.' then none
  else some (String.mk seg)

/-- Claim C2: for every URL the resolver returns a non-empty hash fragment
verbatim, regardless of the path (and of directory contents, which it never
reads); with an empty fragment it returns the final path segment unless
that segment is empty, equals `index.html`, or contains a dot, in which
cases it returns none. -/
theorem c2_url_resolution (frag pathname : String) :
    (frag ≠ "" → getProfileFromURL ("#" ++ frag) pathname = some frag) ∧
    getProfileFromURL "" pathname = specPathCandidate pathname := by
  constructor
  · intro hfrag
    have hdata : ("#" ++ frag).data = '#' :: frag.data := rfl
    have hne : frag.data ≠ [] := by
      intro h
      exact hfrag (by cases frag with | mk l => cases h; rfl)
    simp [getProfileFromURL, hdata, hne]
  · have hdrop : ("" : String).data.drop 1 = ([] : List Char) := rfl
    simp only [getProfileFromURL, specPathCandidate, hdrop, ne_eq, not_true_eq_false,
      IsEmpty.forall_iff, if_false]
    set seg := (splitOnChar '/' (if pathname.data.getLast? = some '/' then
        pathname.data.dropLast else pathname.data)).getLastD [] with hseg
    by_cases h1 : seg = []
    · simp [h1]
    · by_cases h2 : seg = "index.html".data
      · simp [h1, h2]
      · by_cases h3 : seg.contains '.' = true
        · simp [h1, h2, h3]
        · simp [h1, h2, h3]

/-- Witness for claim C2 at a concrete URL. -/
theorem c2_url_resolution_witness :
    getProfileFromURL "#director" "/cards/index.html" = some "director" :=
  (c2_url_resolution "director" "/cards/index.html").1 (by decide)

/-- A contact field of a profile JSON record: absent (`undefined`), a single
string, or an array of strings — mirroring the
`Array.isArray(profile.email) ? profile.email : [profile.email]` handling. -/
inductive JField where
  | undef : JField
  | one : String → JField
  | many : List String → JField
deriving DecidableEq

/-- A parsed profile record, with the fields the script reads.  Optional
fields model JSON fields that may be `undefined`; a present-but-empty string
is distinct from an absent one because the script tests truthiness. -/
structure Profile where
  name : Option String
  title : Option String
  email : JField
  phone : JField
  website : Option String
  location : Option String
  path : Option String
deriving DecidableEq

/-- What one `fetch` of `profiles/<id>.json` can produce: a rejected fetch,
a non-OK response, a body that fails to parse, a body parsing to JSON
`null` (or another falsy value — the script only ever tests truthiness),
or a profile object. -/
inductive Fetched where
  | netError : Fetched
  | httpError : Nat → Fetched
  | parseError : Fetched
  | jsonNull : Fetched
  | record : Profile → Fetched
deriving DecidableEq

/-- The value `loadProfile` hands back and stores: JS `null` or a record. -/
inductive LVal where
  | vnull : LVal
  | vrec : Profile → LVal
deriving DecidableEq

/-- JS truthiness of a loaded value (`null` is falsy, objects are truthy). -/
def LVal.truthy : LVal → Bool
  | .vnull => false
  | .vrec _ => true

/-- The in-memory `profilesCache` object: property list, first binding wins
(later writes are modelled by prepending). -/
abbrev Cache := List (String × LVal)

/-- Property read `profilesCache[id]` (absent property → `undefined`). -/
def cacheGet : Cache → String → Option LVal
  | [], _ => none
  | (k, v) :: rest, id => if k = id then some v else cacheGet rest id

/-- Property write `profilesCache[id] = v`. -/
def cacheInsert (c : Cache) (id : String) (v : LVal) : Cache := (id, v) :: c

/-- Outcome of one `loadProfile(id)` call: the returned value, the cache
afterwards, and whether a network fetch was issued. -/
structure LoadResult where
  value : LVal
  cache : Cache
  fetched : Bool
deriving DecidableEq

/-- Fetch path of `loadProfile` from `app.js`, taken on a cache miss: fetch
`profiles/<id>.json`.  A rejected fetch, a non-OK status and a parse error
are caught (only logged) and yield `null` with the cache untouched; a
successful parse is stored in the cache and returned — even when the parsed
value is JSON `null`, which is stored and returned as `null`.  `world`
fixes what the network answers for each identifier. -/
def loadProfileFetch (world : String → Fetched) (c : Cache) (id : String) : LoadResult :=
  match world id with
  | .netError => ⟨.vnull, c, true⟩
  | .httpError _ => ⟨.vnull, c, true⟩
  | .parseError => ⟨.vnull, c, true⟩
  | .jsonNull => ⟨.vnull, cacheInsert c id .vnull, true⟩
  | .record p => ⟨.vrec p, cacheInsert c id (.vrec p), true⟩

/-- Function `loadProfile` from `app.js`: the truthiness cache test
`if (profilesCache[id]) return profilesCache[id];` followed by the fetch
path above. -/
def loadProfile (world : String → Fetched) (c : Cache) (id : String) : LoadResult :=
  match cacheGet c id with
  | some v =>
    if v.truthy then ⟨v, c, false⟩
    else loadProfileFetch world c id
  | none => loadProfileFetch world c id

/-- The failures claim C3 enumerates: network error, non-success HTTP
status, JSON parse error. -/
def Fetched.isFailure : Fetched → Bool
  | .netError => true
  | .httpError _ => true
  | .parseError => true
  | .jsonNull => false
  | .record _ => false

@[simp] theorem cacheGet_insert (c : Cache) (id : String) (v : LVal) :
    cacheGet (cacheInsert c id v) id = some v := by
  simp [cacheGet, cacheInsert]

/-- A concrete profile record used by witnesses. -/
def sampleProfile : Profile :=
  ⟨some "Jane Doe", some "Director", .one "j@x.org", .one "+1 555 0100",
   some "iav.ac.ma", some "Rabat", some "/director"⟩

/-- Counterexample to claim C3 as stated: after a fetch whose body parses
to JSON `null`, a cached record for the identifier is present
(`profilesCache[id]` holds `null`), yet the next `loadProfile` call does
not return it from the cache — it issues another fetch, because the cache
test is a truthiness test. -/
theorem c3_counterexample :
    cacheGet (loadProfile (fun _ => Fetched.jsonNull) [] "a").cache "a" = some LVal.vnull ∧
    (loadProfile (fun _ => Fetched.jsonNull)
      (loadProfile (fun _ => Fetched.jsonNull) [] "a").cache "a").fetched = true := by
  constructor
  · rfl
  · rfl

/-- Claim C3 as amended: `loadProfile` returns the cached record without
fetching when a truthy (non-`null`) one is present; otherwise it fetches
`profiles/<id>.json`, caches the parsed value only on a successful parse
(a parsed JSON `null` is cached and handed back as `null`), and on any
failure — network error, non-success status, parse error — returns `null`
without modifying the cache and without raising (failures are only
logged; the model is a total function). -/
theorem c3_load_contract (world : String → Fetched) (c : Cache) (id : String) :
    (∀ v, cacheGet c id = some v → v.truthy = true → loadProfile world c id = ⟨v, c, false⟩) ∧
    (cacheGet c id = none →
      (loadProfile world c id).fetched = true ∧
      ((world id).isFailure = true → loadProfile world c id = ⟨.vnull, c, true⟩) ∧
      (world id = .jsonNull → loadProfile world c id = ⟨.vnull, cacheInsert c id .vnull, true⟩) ∧
      (∀ p, world id = .record p →
        loadProfile world c id = ⟨.vrec p, cacheInsert c id (.vrec p), true⟩)) := by
  constructor
  · intro v hv htruthy
    simp [loadProfile, hv, htruthy]
  · intro hmiss
    refine ⟨?_, ?_, ?_, ?_⟩
    · simp only [loadProfile, hmiss]
      cases hw : world id <;> simp [loadProfileFetch, hw]
    · intro hfail
      simp only [loadProfile, hmiss]
      cases hw : world id <;> simp_all [loadProfileFetch, Fetched.isFailure]
    · intro hw
      simp [loadProfile, hmiss, loadProfileFetch, hw]
    · intro p hw
      simp [loadProfile, hmiss, loadProfileFetch, hw]

/-- Witness for the amended claim C3: an empty cache and a world answering
with a record give a fetch that stores and returns the record. -/
theorem c3_load_contract_witness :
    loadProfile (fun _ => Fetched.record sampleProfile) [] "jane" =
      ⟨.vrec sampleProfile, cacheInsert [] "jane" (.vrec sampleProfile), true⟩ :=
  ((c3_load_contract (fun _ => Fetched.record sampleProfile) [] "jane").2
    rfl).2.2.2 sampleProfile rfl

/-- Counterexample to claim C4 as stated: when the first `loadProfile` call
fails (HTTP 404), nothing is cached, so the second sequential call issues a
second fetch — two fetches in total, and the second call is not served from
the cache. -/
theorem c4_counterexample :
    (loadProfile (fun _ => Fetched.httpError 404) [] "a").fetched = true ∧
    (loadProfile (fun _ => Fetched.httpError 404)
      (loadProfile (fun _ => Fetched.httpError 404) [] "a").cache "a").fetched = true := by
  constructor
  · rfl
  · rfl

/-- A truthy value handed back by `loadProfile` is in the cache afterwards. -/
theorem loadProfile_caches_truthy (world : String → Fetched) (c : Cache) (id : String) :
    (loadProfile world c id).value.truthy = true →
      cacheGet (loadProfile world c id).cache id = some (loadProfile world c id).value := by
  match hget : cacheGet c id with
  | some (.vrec q) => simp [loadProfile, hget, LVal.truthy]
  | some .vnull =>
    cases hw : world id <;> simp [loadProfile, hget, loadProfileFetch, hw, LVal.truthy]
  | none =>
    cases hw : world id <;> simp [loadProfile, hget, loadProfileFetch, hw, LVal.truthy]

/-- Claim C4 as amended: when a `loadProfile(id)` call returns a (truthy)
record, the next sequential call for the same identifier is served from
the in-memory cache — it returns the same record, leaves the cache
unchanged, and issues no fetch, so the pair performs at most one fetch.
When the first call fails or parses `null`, the second call fetches again. -/
theorem c4_memoization (world : String → Fetched) (c : Cache) (id : String) (p : Profile)
    (h : (loadProfile world c id).value = .vrec p) :
    loadProfile world (loadProfile world c id).cache id =
      ⟨.vrec p, (loadProfile world c id).cache, false⟩ := by
  have hc : cacheGet (loadProfile world c id).cache id = some (.vrec p) := by
    have hcaches := loadProfile_caches_truthy world c id
    rw [h] at hcaches
    exact hcaches rfl
  rw [loadProfile, hc]
  simp [LVal.truthy]

/-- Witness for the amended claim C4: a successful first load makes the
second call a cache hit with no fetch. -/
theorem c4_memoization_witness :
    loadProfile (fun _ => Fetched.record sampleProfile)
      (loadProfile (fun _ => Fetched.record sampleProfile) [] "jane").cache "jane" =
      ⟨.vrec sampleProfile,
        (loadProfile (fun _ => Fetched.record sampleProfile) [] "jane").cache, false⟩ :=
  c4_memoization (fun _ => Fetched.record sampleProfile) [] "jane" sampleProfile rfl

/-- Leading-slash stripping, `replace(/^\/+/, '')`. -/
def dropLeadingSlashes (l : List Char) : List Char := l.dropWhile (· = '/')

/-- Suffix stripping `replace(/\.(html|htm)$/i, '')`: remove a trailing
`.html` or `.htm`, case-insensitively. -/
def stripHtmlSuffix (l : List Char) : List Char :=
  let low := l.map Char.toLower
  if ['.', 'h', 't', 'm', 'l'].isSuffixOf low then l.take (l.length - 5)
  else if ['.', 'h', 't', 'm'].isSuffixOf low then l.take (l.length - 4)
  else l

/-- Candidate normalization in `getProfileIdFromPath`:
`segment.replace(/^\/+/, '').replace(/\.(html|htm)$/i, '')`. -/
def normalizeSegment (s : String) : List Char := stripHtmlSuffix (dropLeadingSlashes s.data)

/-- Declared-path normalization in `getProfileIdFromPath`:
`String(p.path).replace(/^\/+/, '').replace(/\/(?:index\.html)?$/, '')` —
leading slashes, then one trailing `/index.html` or one trailing `/`
(this second replace is case-sensitive). -/
def normalizePath (l : List Char) : List Char :=
  let l1 := dropLeadingSlashes l
  if ['/', 'i', 'n', 'd', 'e', 'x', '.', 'h', 't', 'm', 'l'].isSuffixOf l1 then
    l1.take (l1.length - 11)
  else if l1.getLast? = some '/' then l1.dropLast
  else l1

/-- ASCII lower-case letters and digits, the class `[a-z0-9]`. -/
def isAlnumLower (c : Char) : Bool := ('a' ≤ c && c ≤ 'z') || ('0' ≤ c && c ≤ '9')

/-- Global replace `[^a-z0-9]+` → `-`: every maximal run of characters
outside `[a-z0-9]` becomes one hyphen. -/
def collapseNonAlnum : List Char → List Char
  | [] => []
  | c :: rest =>
    if isAlnumLower c then c :: collapseNonAlnum rest
    else
      match rest with
      | [] => ['-']
      | c2 :: _ =>
        if isAlnumLower c2 then '-' :: collapseNonAlnum rest
        else collapseNonAlnum rest

/-- Global replace `(^-|-$)` → `''`: one leading and one trailing hyphen
removed (after the collapse, runs at the ends are single hyphens). -/
def trimHyphens (l : List Char) : List Char :=
  let l1 :=
    match l with
    | c :: t => if c = '-' then t else l
    | [] => l
  match l1.getLast? with
  | some c => if c = '-' then l1.dropLast else l1
  | none => l1

/-- Name slug in `getProfileIdFromPath`:
`String(p.name).toLowerCase().replace(/[^a-z0-9]+/g, '-').replace(/(^-|-$)/g, '')`. -/
def slugOfName (nm : String) : List Char :=
  trimHyphens (collapseNonAlnum (nm.data.map Char.toLower))

/-- Per-profile declared-path comparison of the loop in
`getProfileIdFromPath` (`app.js` lines 62–67), including the two
slash-variant comparisons, guarded by the truthiness of `p.path`. -/
def codePathHit (norm : List Char) : Option String → Bool
  | some pp =>
    if pp = "" then false
    else
      let pPath := normalizePath pp.data
      pPath == norm || ('/' :: pPath) == norm || pPath == ('/' :: norm)
  | none => false

/-- Per-profile name-slug comparison of the loop (`app.js` lines 70–73):
the slug against the lower-cased normalized candidate, guarded by the
truthiness of `p.name`. -/
def codeNameHit (norm : List Char) : Option String → Bool
  | some nm => if nm = "" then false else slugOfName nm == norm.map Char.toLower
  | none => false

/-- The `for (const id of availableProfiles)` loop of
`getProfileIdFromPath`: load each profile (skipping ones that fail to
load), return the first identifier whose declared path or name slug
matches.  `profileOf` abstracts what `loadProfile` yields per identifier. -/
def aliasLoop (profileOf : String → Option Profile) :
    List String → List Char → Option String
  | [], _ => none
  | id :: rest, norm =>
    match profileOf id with
    | none => aliasLoop profileOf rest norm
    | some p =>
      if codePathHit norm p.path then some id
      else if codeNameHit norm p.name then some id
      else aliasLoop profileOf rest norm

/-- Function `getProfileIdFromPath` from `app.js`: empty segment → none;
normalize the segment; return it directly when it is a known identifier;
otherwise run the alias loop. -/
def getProfileIdFromPath (profileOf : String → Option Profile)
    (availableProfiles : List String) (segment : String) : Option String :=
  if segment = "" then none
  else
    let normalized := normalizeSegment segment
    if availableProfiles.contains (String.mk normalized) then some (String.mk normalized)
    else aliasLoop profileOf availableProfiles normalized

/-- Alias resolution exactly as claim C1 words it: for a candidate that is
not already a known identifier, normalize it (leading slashes, trailing
`.html`/`.htm`), then walk the directory comparing the normalized candidate
with each profile's normalized declared path and with the slug of its
name; first match wins, none otherwise. -/
def claimLoop (profileOf : String → Option Profile) :
    List String → List Char → Option String
  | [], _ => none
  | id :: rest, norm =>
    match profileOf id with
    | none => claimLoop profileOf rest norm
    | some p =>
      let pathHit : Bool :=
        match p.path with
        | some pp => normalizeSegment pp == norm
        | none => false
      let nameHit : Bool :=
        match p.name with
        | some nm => slugOfName nm == norm
        | none => false
      if pathHit || nameHit then some id else claimLoop profileOf rest norm

/-- Entry point of the claim-worded resolution procedure. -/
def claimAliasResolve (profileOf : String → Option Profile)
    (avail : List String) (candidate : String) : Option String :=
  claimLoop profileOf avail (normalizeSegment candidate)

/-- Declared-path comparison as the amended claim words it: the normalized
declared path (leading slashes, one trailing `/` or `/index.html` removed)
equals the normalized candidate; profiles with a missing or empty `path`
have no path match. -/
def fixedPathHit (norm : List Char) : Option String → Bool
  | some pp => pp != "" && normalizePath pp.data == norm
  | none => false

/-- Name-slug comparison as the amended claim words it: the slug equals the
lower-cased normalized candidate; missing or empty names have no match. -/
def fixedNameHit (norm : List Char) : Option String → Bool
  | some nm => nm != "" && slugOfName nm == norm.map Char.toLower
  | none => false

/-- Directory walk of the amended claim: first profile whose declared path
or name slug matches, skipping profiles that fail to load. -/
def fixedLoop (profileOf : String → Option Profile) :
    List String → List Char → Option String
  | [], _ => none
  | id :: rest, norm =>
    match profileOf id with
    | none => fixedLoop profileOf rest norm
    | some p =>
      if fixedPathHit norm p.path || fixedNameHit norm p.name then some id
      else fixedLoop profileOf rest norm

/-- Entry point of the amended-claim resolution procedure. -/
def fixedAliasResolve (profileOf : String → Option Profile)
    (avail : List String) (candidate : String) : Option String :=
  fixedLoop profileOf avail (normalizeSegment candidate)

theorem dropLeadingSlashes_not_slash_head :
    ∀ (l t : List Char), dropLeadingSlashes l ≠ '/' :: t := by
  intro l
  induction l with
  | nil => intro t h; exact List.noConfusion h
  | cons c rest ih =>
    intro t h
    by_cases hc : c = '/'
    · exact ih t (by simpa [dropLeadingSlashes, hc] using h)
    · rw [dropLeadingSlashes, List.dropWhile_cons_of_neg (by simpa using hc)] at h
      cases h
      exact hc rfl

theorem take_eq_cons {l t : List Char} {n : Nat} {c : Char}
    (h : l.take n = c :: t) : ∃ t2, l = c :: t2 := by
  cases l with
  | nil => simp at h
  | cons a as =>
    cases n with
    | zero => simp at h
    | succ m =>
      rw [List.take_succ_cons] at h
      cases h
      exact ⟨as, rfl⟩

theorem dropLast_eq_cons {l t : List Char} {c : Char}
    (h : l.dropLast = c :: t) : ∃ t2, l = c :: t2 := by
  cases l with
  | nil => simp at h
  | cons a as =>
    cases as with
    | nil => simp at h
    | cons b bs =>
      rw [List.dropLast_cons₂] at h
      cases h
      exact ⟨b :: bs, rfl⟩

theorem normalizeSegment_not_slash_head (s : String) :
    ∀ t, normalizeSegment s ≠ '/' :: t := by
  intro t h
  rw [normalizeSegment, stripHtmlSuffix] at h
  split at h
  · obtain ⟨t2, h2⟩ := take_eq_cons h
    exact dropLeadingSlashes_not_slash_head s.data t2 h2
  · split at h
    · obtain ⟨t2, h2⟩ := take_eq_cons h
      exact dropLeadingSlashes_not_slash_head s.data t2 h2
    · exact dropLeadingSlashes_not_slash_head s.data t h

theorem normalizePath_not_slash_head (l : List Char) :
    ∀ t, normalizePath l ≠ '/' :: t := by
  intro t h
  rw [normalizePath] at h
  split at h
  · obtain ⟨t2, h2⟩ := take_eq_cons h
    exact dropLeadingSlashes_not_slash_head l t2 h2
  · split at h
    · obtain ⟨t2, h2⟩ := dropLast_eq_cons h
      exact dropLeadingSlashes_not_slash_head l t2 h2
    · exact dropLeadingSlashes_not_slash_head l t h

theorem codePathHit_eq_fixed (norm : List Char) (hnorm : ∀ t, norm ≠ '/' :: t) :
    ∀ o : Option String, codePathHit norm o = fixedPathHit norm o := by
  intro o
  cases o with
  | none => rfl
  | some pp =>
    by_cases hpp : pp = ""
    · simp [codePathHit, fixedPathHit, hpp]
    · have hdead1 : (('/' :: normalizePath pp.data) == norm) = false := by
        rw [beq_eq_false_iff_ne]
        intro h
        exact hnorm (normalizePath pp.data) h.symm
      have hdead2 : (normalizePath pp.data == ('/' :: norm)) = false := by
        rw [beq_eq_false_iff_ne]
        intro h
        exact normalizePath_not_slash_head pp.data norm h
      simp [codePathHit, fixedPathHit, hpp, hdead1, hdead2]

theorem codeNameHit_eq_fixed (norm : List Char) :
    ∀ o : Option String, codeNameHit norm o = fixedNameHit norm o := by
  intro o
  cases o with
  | none => rfl
  | some nm =>
    by_cases hnm : nm = ""
    · simp [codeNameHit, fixedNameHit, hnm]
    · simp [codeNameHit, fixedNameHit, hnm]

theorem aliasLoop_eq_fixedLoop (profileOf : String → Option Profile)
    (avail : List String) (norm : List Char) (hnorm : ∀ t, norm ≠ '/' :: t) :
    aliasLoop profileOf avail norm = fixedLoop profileOf avail norm := by
  induction avail with
  | nil => rfl
  | cons id rest ih =>
    cases hp : profileOf id with
    | none =>
      simp only [aliasLoop, fixedLoop, hp]
      exact ih
    | some p =>
      simp only [aliasLoop, fixedLoop, hp]
      rw [codePathHit_eq_fixed norm hnorm p.path, codeNameHit_eq_fixed norm p.name]
      by_cases h1 : fixedPathHit norm p.path = true
      · simp [h1]
      · by_cases h2 : fixedNameHit norm p.name = true
        · simp [h1, h2]
        · simp [h1, h2, ih]

/-- Profile used by the claim C1 scenario: declared path `/boss`,
name `Jane`. -/
def c1DirProfile : Profile :=
  ⟨some "Jane", some "Director", .one "j@x.org", .one "+1", none, none, some "/boss"⟩

/-- Directory oracle for the claim C1 scenario: only `director` loads. -/
def c1ProfileOf : String → Option Profile :=
  fun id => if id = "director" then some c1DirProfile else none

/-- Counterexample to claim C1 as stated: the candidate `director.html` is
not a known identifier, so by the claim resolution should walk the
directory comparing the normalized candidate against declared paths and
name slugs — which matches nothing here, giving none.  The code instead
returns `director` directly, because its direct-identifier membership test
runs on the *normalized* candidate before the loop. -/
theorem c1_counterexample :
    (["director"] : List String).contains "director.html" = false ∧
    getProfileIdFromPath c1ProfileOf ["director"] "director.html" = some "director" ∧
    claimAliasResolve c1ProfileOf ["director"] "director.html" = none := by
  refine ⟨by decide, ?_, ?_⟩
  · decide
  · decide

/-- Claim C1 as amended: for every non-empty candidate whose *normalized*
form (leading slashes stripped, trailing `.html`/`.htm` removed) is not
already a known identifier, resolution walks the directory in order,
loading each profile (skipping load failures) and returning the first
identifier whose normalized declared path (leading slashes, one trailing
`/` or `/index.html` removed) equals the normalized candidate, or whose
name slug (lower-case, non-alphanumeric runs collapsed to hyphens, end
hyphens trimmed) equals the *lower-cased* normalized candidate; none when
no profile matches. -/
theorem c1_alias_resolution (profileOf : String → Option Profile)
    (avail : List String) (segment : String) (hne : segment ≠ "")
    (hunknown : avail.contains (String.mk (normalizeSegment segment)) = false) :
    getProfileIdFromPath profileOf avail segment =
      fixedAliasResolve profileOf avail segment := by
  rw [getProfileIdFromPath, fixedAliasResolve, if_neg hne]
  simp only [hunknown, Bool.false_eq_true, if_false]
  exact aliasLoop_eq_fixedLoop profileOf avail (normalizeSegment segment)
    (normalizeSegment_not_slash_head segment)

/-- Witness for the amended claim C1 at a concrete unknown candidate whose
declared-path alias matches. -/
theorem c1_alias_resolution_witness :
    getProfileIdFromPath c1ProfileOf ["director"] "/boss" =
      fixedAliasResolve c1ProfileOf ["director"] "/boss" :=
  c1_alias_resolution c1ProfileOf ["director"] "/boss" (by decide) (by decide)

/-- String interpolation of a possibly-undefined JS value inside a
template literal: `undefined` prints as the text `undefined`. -/
def renderJs : Option String → String
  | some s => s
  | none => "undefined"

/-- Coercion `Array.isArray(x) ? x : [x]` applied to a contact field:
a non-array value (including `undefined`) becomes a one-element array. -/
def jfElems : JField → List (Option String)
  | .undef => [none]
  | .one s => [some s]
  | .many l => l.map some

/-- The indexed `map` building `TEL`/`EMAIL` lines: index 0 gets the first
TYPE, later indices the rest TYPE. -/
def typedLines (first rest : String) : Nat → List (Option String) → List String
  | _, [] => []
  | i, e :: es =>
    ((if i = 0 then first else rest) ++ renderJs e) :: typedLines first rest (i + 1) es

/-- The `TEL` lines of `generateVCard`: first phone `WORK,PREF`, rest
`CELL`. -/
def telLines (f : JField) : List String :=
  typedLines "TEL;TYPE=WORK,PREF:" "TEL;TYPE=CELL:" 0 (jfElems f)

/-- The `EMAIL` lines of `generateVCard`: first email `WORK,PREF`, rest
`HOME`. -/
def vcfEmailLines (f : JField) : List String :=
  typedLines "EMAIL;TYPE=WORK,PREF:" "EMAIL;TYPE=HOME:" 0 (jfElems f)

/-- The `N:` field of `generateVCard`: split the trimmed name on
whitespace, first word is the given name, last word the family name, the
middle words joined with spaces the additional names; empty when the name
is falsy (then dropped by the final `filter(Boolean)`). -/
def nField : Option String → String
  | none => ""
  | some nm =>
    if nm = "" then ""
    else
      match jsSplitWs (jsTrim nm.data) with
      | [] => "N:;;;;"
      | g :: rest =>
        let given := String.mk g
        let family :=
          match rest.getLast? with
          | some f => String.mk f
          | none => ""
        let additional := joinWith " " (rest.dropLast.map String.mk)
        "N:" ++ family ++ ";" ++ given ++ ";" ++ additional ++ ";;"

/-- The constant `ORG` line of `generateVCard`. -/
def orgLine : String := "ORG:Hassan II Institute of Agronomy and Veterinary Medicine"

/-- JS `Boolean` on a string, as used by `parts.filter(Boolean)`: only the
empty string is falsy. -/
def strTruthy (s : String) : Bool := s != ""

@[simp] theorem strTruthy_iff (s : String) : strTruthy s = true ↔ s ≠ "" := by
  simp [strTruthy]

/-- Function `generateVCard` from `app.js`: fixed header lines, the `N`
field (dropped when empty by `filter(Boolean)`), `TITLE`, `ORG`, the
CRLF-joined `TEL` and `EMAIL` blocks pushed only when non-empty, then
`URL:https://...`, `ADR:;;...` and the footer, all joined with CRLF. -/
def generateVCard (p : Profile) : String :=
  let phoneJoined := joinWith CRLF (telLines p.phone)
  let emailJoined := joinWith CRLF (vcfEmailLines p.email)
  let parts : List String :=
    ["BEGIN:VCARD", "VERSION:3.0", "FN:" ++ jsOrEmpty p.name, nField p.name,
      "TITLE:" ++ jsOrEmpty p.title, orgLine]
      ++ (if phoneJoined ≠ "" then [phoneJoined] else [])
      ++ (if emailJoined ≠ "" then [emailJoined] else [])
      ++ ["URL:https://" ++ jsOrEmpty p.website, "ADR:;;" ++ jsOrEmpty p.location,
          "END:VCARD"]
  joinWith CRLF (parts.filter strTruthy)

/-- The individual lines of the generated vCard, before CRLF joining: the
same parts with the `TEL`/`EMAIL` blocks kept as separate lines. -/
def vcardLines (p : Profile) : List String :=
  (["BEGIN:VCARD", "VERSION:3.0", "FN:" ++ jsOrEmpty p.name, nField p.name,
    "TITLE:" ++ jsOrEmpty p.title, orgLine]
    ++ telLines p.phone ++ vcfEmailLines p.email
    ++ ["URL:https://" ++ jsOrEmpty p.website, "ADR:;;" ++ jsOrEmpty p.location,
        "END:VCARD"]).filter strTruthy

theorem ne_empty_of_left (a b : String) (h : a ≠ "") : a ++ b ≠ "" := by
  intro hab
  apply h
  have hdata : (a ++ b).data = [] := by rw [hab]
  rw [data_append] at hdata
  have ha : a.data = [] := (List.append_eq_nil.mp hdata).1
  cases a with
  | mk l => cases ha; rfl

theorem joinWith_cons (sep x : String) (l : List String) :
    joinWith sep (x :: l) = if l = [] then x else x ++ sep ++ joinWith sep l := by
  cases l with
  | nil => rfl
  | cons y t => simp [joinWith]

theorem joinWith_append (sep : String) :
    ∀ xs ys : List String, xs ≠ [] → ys ≠ [] →
      joinWith sep (xs ++ ys) = joinWith sep xs ++ sep ++ joinWith sep ys := by
  intro xs
  induction xs with
  | nil => intro ys h; exact absurd rfl h
  | cons x xt ih =>
    intro ys _ hys
    cases xt with
    | nil =>
      rw [List.singleton_append, joinWith_cons, if_neg hys, joinWith]
    | cons x2 xt2 =>
      rw [List.cons_append, joinWith_cons, if_neg (by simp), joinWith_cons,
        if_neg (by simp), ih ys (by simp) hys]
      simp [String.append_assoc]

theorem joinWith_middle (sep : String) :
    ∀ A M B : List String, M ≠ [] →
      joinWith sep (A ++ joinWith sep M :: B) = joinWith sep (A ++ (M ++ B)) := by
  intro A
  induction A with
  | nil =>
    intro M B hM
    cases B with
    | nil => simp [joinWith_cons, hM]
    | cons b bt =>
      rw [List.nil_append, List.nil_append, joinWith_cons, if_neg (by simp),
        joinWith_append sep M (b :: bt) hM (by simp)]
  | cons a At ih =>
    intro M B hM
    rw [List.cons_append, List.cons_append, joinWith_cons, joinWith_cons,
      if_neg (by simp), if_neg (by simp [hM]), ih M B hM]

theorem joinWith_ne_empty (M : List String) (hall : ∀ s ∈ M, s ≠ "") (hM : M ≠ []) :
    joinWith CRLF M ≠ "" := by
  cases M with
  | nil => exact absurd rfl hM
  | cons x xs =>
    rw [joinWith_cons]
    by_cases hxs : xs = []
    · rw [if_pos hxs]
      exact hall x (by simp)
    · rw [if_neg hxs]
      exact ne_empty_of_left _ _ (ne_empty_of_left x CRLF (hall x (by simp)))

theorem joinWith_if_middle (A B M : List String) (hall : ∀ s ∈ M, s ≠ "") :
    joinWith CRLF (A ++ (if joinWith CRLF M ≠ "" then [joinWith CRLF M] else []) ++ B)
      = joinWith CRLF (A ++ (M ++ B)) := by
  by_cases hM : M = []
  · subst hM
    simp [joinWith]
  · have hjM : joinWith CRLF M ≠ "" := joinWith_ne_empty M hall hM
    rw [if_pos hjM]
    have hshape : A ++ [joinWith CRLF M] ++ B = A ++ (joinWith CRLF M :: B) := by simp
    rw [hshape, joinWith_middle CRLF A M B hM]

theorem typedLines_ne_empty (first rest : String) (hf : first ≠ "") (hr : rest ≠ "") :
    ∀ (i : Nat) (es : List (Option String)) (s : String),
      s ∈ typedLines first rest i es → s ≠ "" := by
  intro i es
  induction es generalizing i with
  | nil => intro s hs; simp [typedLines] at hs
  | cons e et ih =>
    intro s hs
    rw [typedLines, List.mem_cons] at hs
    rcases hs with hs | hs
    · subst hs
      by_cases hi : i = 0
      · simp only [hi, if_pos rfl]
        exact ne_empty_of_left first _ hf
      · rw [if_neg hi]
        exact ne_empty_of_left rest _ hr
    · exact ih (i + 1) s hs

theorem telLines_ne_empty (f : JField) : ∀ s ∈ telLines f, s ≠ "" := by
  intro s hs
  exact typedLines_ne_empty _ _ (by decide) (by decide) 0 (jfElems f) s hs

theorem vcfEmailLines_ne_empty (f : JField) : ∀ s ∈ vcfEmailLines f, s ≠ "" := by
  intro s hs
  exact typedLines_ne_empty _ _ (by decide) (by decide) 0 (jfElems f) s hs

theorem filter_of_ne_empty (l : List String) (h : ∀ s ∈ l, s ≠ "") :
    l.filter strTruthy = l := by
  refine List.filter_eq_self.mpr ?_
  intro a ha
  simpa using h a ha

/-- The generated vCard is its lines joined with CRLF. -/
theorem generateVCard_eq_joinLines (p : Profile) :
    generateVCard p = joinWith CRLF (vcardLines p) := by
  rw [generateVCard, vcardLines]
  rw [List.filter_append, List.filter_append, List.filter_append,
    List.filter_append, List.filter_append, List.filter_append,
    filter_of_ne_empty (telLines p.phone) (telLines_ne_empty p.phone),
    filter_of_ne_empty (vcfEmailLines p.email) (vcfEmailLines_ne_empty p.email)]
  have hPfilter :
      (if joinWith CRLF (telLines p.phone) ≠ "" then [joinWith CRLF (telLines p.phone)]
        else []).filter strTruthy =
      (if joinWith CRLF (telLines p.phone) ≠ "" then [joinWith CRLF (telLines p.phone)]
        else []) := by
    split
    · next hne => simp [List.filter, (strTruthy_iff _).mpr hne]
    · rfl
  have hEfilter :
      (if joinWith CRLF (vcfEmailLines p.email) ≠ ""
          then [joinWith CRLF (vcfEmailLines p.email)] else []).filter strTruthy =
      (if joinWith CRLF (vcfEmailLines p.email) ≠ ""
          then [joinWith CRLF (vcfEmailLines p.email)] else []) := by
    split
    · next hne => simp [List.filter, (strTruthy_iff _).mpr hne]
    · rfl
  rw [hPfilter, hEfilter]
  have h1 := joinWith_if_middle
    ((["BEGIN:VCARD", "VERSION:3.0", "FN:" ++ jsOrEmpty p.name, nField p.name,
      "TITLE:" ++ jsOrEmpty p.title, orgLine]).filter strTruthy)
    ((if joinWith CRLF (vcfEmailLines p.email) ≠ ""
        then [joinWith CRLF (vcfEmailLines p.email)] else [])
      ++ (["URL:https://" ++ jsOrEmpty p.website, "ADR:;;" ++ jsOrEmpty p.location,
          "END:VCARD"]).filter strTruthy)
    (telLines p.phone) (telLines_ne_empty p.phone)
  have h2 := joinWith_if_middle
    ((["BEGIN:VCARD", "VERSION:3.0", "FN:" ++ jsOrEmpty p.name, nField p.name,
      "TITLE:" ++ jsOrEmpty p.title, orgLine]).filter strTruthy
      ++ telLines p.phone)
    ((["URL:https://" ++ jsOrEmpty p.website, "ADR:;;" ++ jsOrEmpty p.location,
        "END:VCARD"]).filter strTruthy)
    (vcfEmailLines p.email) (vcfEmailLines_ne_empty p.email)
  simp only [List.append_assoc] at h1 h2 ⊢
  rw [h1, h2]

/-- Whether a vCard line starts with the given field prefix. -/
def lineStarts (pre s : String) : Bool := pre.data.isPrefixOf s.data

theorem tel_ne_fn (x : String) : lineStarts "TEL" ("FN:" ++ x) = false := rfl

theorem tel_ne_n (x : String) : lineStarts "TEL" ("N:" ++ x) = false := rfl

theorem tel_ne_title (x : String) : lineStarts "TEL" ("TITLE:" ++ x) = false := rfl

theorem tel_ne_url (x : String) : lineStarts "TEL" ("URL:https://" ++ x) = false := rfl

theorem tel_ne_adr (x : String) : lineStarts "TEL" ("ADR:;;" ++ x) = false := rfl

theorem tel_yes_work (x : String) : lineStarts "TEL" ("TEL;TYPE=WORK,PREF:" ++ x) = true := rfl

theorem tel_yes_cell (x : String) : lineStarts "TEL" ("TEL;TYPE=CELL:" ++ x) = true := rfl

theorem email_ne_fn (x : String) : lineStarts "EMAIL" ("FN:" ++ x) = false := rfl

theorem email_ne_n (x : String) : lineStarts "EMAIL" ("N:" ++ x) = false := rfl

theorem email_ne_title (x : String) : lineStarts "EMAIL" ("TITLE:" ++ x) = false := rfl

theorem email_ne_url (x : String) : lineStarts "EMAIL" ("URL:https://" ++ x) = false := rfl

theorem email_ne_adr (x : String) : lineStarts "EMAIL" ("ADR:;;" ++ x) = false := rfl

theorem email_ne_tel1 (x : String) :
    lineStarts "EMAIL" ("TEL;TYPE=WORK,PREF:" ++ x) = false := rfl

theorem email_ne_tel2 (x : String) : lineStarts "EMAIL" ("TEL;TYPE=CELL:" ++ x) = false := rfl

theorem email_yes_work (x : String) :
    lineStarts "EMAIL" ("EMAIL;TYPE=WORK,PREF:" ++ x) = true := rfl

theorem email_yes_home (x : String) :
    lineStarts "EMAIL" ("EMAIL;TYPE=HOME:" ++ x) = true := rfl

theorem tel_ne_email1 (x : String) :
    lineStarts "TEL" ("EMAIL;TYPE=WORK,PREF:" ++ x) = false := rfl

theorem tel_ne_email2 (x : String) : lineStarts "TEL" ("EMAIL;TYPE=HOME:" ++ x) = false := rfl

/-- The `N` field is either empty (falsy name) or an `N:`-prefixed line. -/
theorem nField_cases (o : Option String) : nField o = "" ∨ ∃ x, nField o = "N:" ++ x := by
  cases o with
  | none => exact Or.inl rfl
  | some nm =>
    by_cases hnm : nm = ""
    · exact Or.inl (by simp [nField, hnm])
    · right
      rw [nField, if_neg hnm]
      cases hsplit : jsSplitWs (jsTrim nm.data) with
      | nil => exact ⟨";;;;", rfl⟩
      | cons g rest =>
        refine ⟨(match rest.getLast? with
          | some f => String.mk f
          | none => "") ++ ";" ++ String.mk g ++ ";"
            ++ joinWith " " (rest.dropLast.map String.mk) ++ ";;", ?_⟩
        simp [String.append_assoc]

theorem tel_ne_nField (o : Option String) : lineStarts "TEL" (nField o) = false := by
  rcases nField_cases o with h | ⟨x, h⟩ <;> rw [h]
  · rfl
  · exact tel_ne_n x

theorem email_ne_nField (o : Option String) : lineStarts "EMAIL" (nField o) = false := by
  rcases nField_cases o with h | ⟨x, h⟩ <;> rw [h]
  · rfl
  · exact email_ne_n x

/-- Every line `typedLines` builds begins with one of its two prefixes. -/
theorem typedLines_mem_shape (first rest : String) :
    ∀ (i : Nat) (es : List (Option String)) (s : String), s ∈ typedLines first rest i es →
      (∃ x, s = first ++ x) ∨ ∃ x, s = rest ++ x := by
  intro i es
  induction es generalizing i with
  | nil => intro s hs; simp [typedLines] at hs
  | cons e et ih =>
    intro s hs
    rw [typedLines, List.mem_cons] at hs
    rcases hs with hs | hs
    · by_cases hi : i = 0
      · exact Or.inl ⟨renderJs e, by rw [hs, if_pos hi]⟩
      · exact Or.inr ⟨renderJs e, by rw [hs, if_neg hi]⟩
    · exact ih (i + 1) s hs

theorem tel_filter_emailLines (f : JField) :
    (vcfEmailLines f).filter (fun l => lineStarts "TEL" l) = [] := by
  refine List.filter_eq_nil_iff.mpr ?_
  intro a ha
  rcases typedLines_mem_shape _ _ 0 (jfElems f) a ha with ⟨x, hx⟩ | ⟨x, hx⟩ <;> subst hx
  · simp [tel_ne_email1]
  · simp [tel_ne_email2]

theorem email_filter_telLines (f : JField) :
    (telLines f).filter (fun l => lineStarts "EMAIL" l) = [] := by
  refine List.filter_eq_nil_iff.mpr ?_
  intro a ha
  rcases typedLines_mem_shape _ _ 0 (jfElems f) a ha with ⟨x, hx⟩ | ⟨x, hx⟩ <;> subst hx
  · simp [email_ne_tel1]
  · simp [email_ne_tel2]

theorem telLines_two (p1 p2 : String) :
    telLines (.many [p1, p2]) = ["TEL;TYPE=WORK,PREF:" ++ p1, "TEL;TYPE=CELL:" ++ p2] := rfl

/-- On indices past the first, `typedLines` maps every entry to a
rest-typed line. -/
theorem typedLines_pos (first rest : String) :
    ∀ (l : List String) (i : Nat),
      typedLines first rest (i + 1) (l.map some) = l.map (fun x => rest ++ x) := by
  intro l
  induction l with
  | nil => intro i; rfl
  | cons a at2 ih =>
    intro i
    rw [List.map_cons, typedLines, if_neg (by omega), List.map_cons]
    exact congrArg _ (ih (i + 1))

theorem vcfEmailLines_cons (e : String) (es : List String) :
    vcfEmailLines (.many (e :: es)) =
      ("EMAIL;TYPE=WORK,PREF:" ++ e) :: es.map (fun x => "EMAIL;TYPE=HOME:" ++ x) := by
  rw [vcfEmailLines]
  show typedLines _ _ 0 (some e :: es.map some) = _
  rw [typedLines, if_pos rfl]
  exact congrArg _ (typedLines_pos _ _ es 0)

theorem email_filter_home (es : List String) :
    (es.map (fun x => "EMAIL;TYPE=HOME:" ++ x)).filter (fun l => lineStarts "EMAIL" l) =
      es.map (fun x => "EMAIL;TYPE=HOME:" ++ x) := by
  refine List.filter_eq_self.mpr ?_
  intro a ha
  rcases List.mem_map.mp ha with ⟨x, _, hx⟩
  subst hx
  simp [email_yes_home]

/-- The lines of the generated vCard, with the inner non-emptiness filter
evaluated: only the `N` field can be dropped. -/
theorem vcardLines_expand (p : Profile) :
    vcardLines p =
      ["BEGIN:VCARD", "VERSION:3.0", "FN:" ++ jsOrEmpty p.name]
        ++ (if nField p.name = "" then [] else [nField p.name])
        ++ ["TITLE:" ++ jsOrEmpty p.title, orgLine]
        ++ telLines p.phone ++ vcfEmailLines p.email
        ++ ["URL:https://" ++ jsOrEmpty p.website, "ADR:;;" ++ jsOrEmpty p.location,
            "END:VCARD"] := by
  rw [vcardLines]
  have hFN : ("FN:" ++ jsOrEmpty p.name) ≠ "" := ne_empty_of_left _ _ (by decide)
  have hTI : ("TITLE:" ++ jsOrEmpty p.title) ≠ "" := ne_empty_of_left _ _ (by decide)
  have hURL : ("URL:https://" ++ jsOrEmpty p.website) ≠ "" := ne_empty_of_left _ _ (by decide)
  have hADR : ("ADR:;;" ++ jsOrEmpty p.location) ≠ "" := ne_empty_of_left _ _ (by decide)
  by_cases hn : nField p.name = ""
  · simp +decide [List.filter_append, List.filter_cons, hn, hFN, hTI, hURL, hADR,
      filter_of_ne_empty _ (telLines_ne_empty p.phone),
      filter_of_ne_empty _ (vcfEmailLines_ne_empty p.email)]
  · simp +decide [List.filter_append, List.filter_cons, hn, hFN, hTI, hURL, hADR,
      filter_of_ne_empty _ (telLines_ne_empty p.phone),
      filter_of_ne_empty _ (vcfEmailLines_ne_empty p.email)]

theorem tel_filter_nblock (c : Prop) [Decidable c] (o : Option String) :
    (if c then ([] : List String) else [nField o]).filter (fun l => lineStarts "TEL" l)
      = [] := by
  split
  · rfl
  · simp [tel_ne_nField]

theorem email_filter_nblock (c : Prop) [Decidable c] (o : Option String) :
    (if c then ([] : List String) else [nField o]).filter (fun l => lineStarts "EMAIL" l)
      = [] := by
  split
  · rfl
  · simp [email_ne_nField]

/-- Claim C5: for a profile whose phone field holds two phone numbers, the
vCard lines contain exactly two `TEL` lines with distinct TYPE parameters —
the first `WORK,PREF`, the second `CELL` — and analogously the first email
line is typed `WORK,PREF` and all later ones `HOME`; the full vCard text is
these lines joined with CRLF. -/
theorem c5_two_phones (p : Profile) (p1 p2 : String) (hph : p.phone = .many [p1, p2]) :
    generateVCard p = joinWith CRLF (vcardLines p) ∧
    (vcardLines p).filter (fun l => lineStarts "TEL" l) =
      ["TEL;TYPE=WORK,PREF:" ++ p1, "TEL;TYPE=CELL:" ++ p2] ∧
    (∀ e es, p.email = .many (e :: es) →
      (vcardLines p).filter (fun l => lineStarts "EMAIL" l) =
        ("EMAIL;TYPE=WORK,PREF:" ++ e) :: es.map (fun x => "EMAIL;TYPE=HOME:" ++ x)) := by
  refine ⟨generateVCard_eq_joinLines p, ?_, ?_⟩
  · rw [vcardLines_expand, hph, telLines_two]
    simp +decide [List.filter_append, List.filter_cons, tel_ne_fn, tel_ne_title,
      tel_ne_url, tel_ne_adr, tel_yes_work, tel_yes_cell,
      tel_filter_nblock, tel_filter_emailLines]
  · intro e es hem
    rw [vcardLines_expand, hem, vcfEmailLines_cons]
    simp +decide [List.filter_append, List.filter_cons, email_ne_fn, email_ne_title,
      email_ne_url, email_ne_adr, email_yes_work,
      email_filter_nblock, email_filter_telLines, email_filter_home]

/-- Witness for claim C5 at a concrete two-phone profile. -/
theorem c5_two_phones_witness :
    (vcardLines ⟨some "Jane Doe", some "Director", .many ["j@x.org", "p@x.org"],
        .many ["+1 555 0100", "+1 555 0200"], none, none, none⟩).filter
      (fun l => lineStarts "TEL" l) =
      ["TEL;TYPE=WORK,PREF:+1 555 0100", "TEL;TYPE=CELL:+1 555 0200"] :=
  (c5_two_phones _ "+1 555 0100" "+1 555 0200" rfl).2.1

/-- Every string starts with itself as a prefix of any extension. -/
theorem lineStarts_append (pre x : String) : lineStarts pre (pre ++ x) = true := by
  show pre.data.isPrefixOf (pre.data ++ x.data) = true
  rw [List.isPrefixOf_iff_prefix]
  exact List.prefix_append _ _

theorem fn_starts (x : String) : lineStarts "FN:" ("FN:" ++ x) = true :=
  lineStarts_append "FN:" x

theorem n_starts (x : String) : lineStarts "N:" ("N:" ++ x) = true :=
  lineStarts_append "N:" x

theorem title_starts (x : String) : lineStarts "TITLE:" ("TITLE:" ++ x) = true :=
  lineStarts_append "TITLE:" x

theorem teltype_starts (x : String) :
    lineStarts "TEL;TYPE=" ("TEL;TYPE=WORK,PREF:" ++ x) = true := rfl

theorem emailtype_starts (x : String) :
    lineStarts "EMAIL;TYPE=" ("EMAIL;TYPE=WORK,PREF:" ++ x) = true := rfl

theorem url_starts (x : String) : lineStarts "URL:" ("URL:https://" ++ x) = true := rfl

theorem adr_starts (x : String) : lineStarts "ADR:" ("ADR:;;" ++ x) = true := rfl

/-- A truthy name always yields an `N:`-prefixed `N` field. -/
theorem nField_some_ne (nm : String) (h : nm ≠ "") : ∃ x, nField (some nm) = "N:" ++ x := by
  rw [nField, if_neg h]
  cases hsplit : jsSplitWs (jsTrim nm.data) with
  | nil => exact ⟨";;;;", rfl⟩
  | cons g rest =>
    refine ⟨(match rest.getLast? with
      | some f => String.mk f
      | none => "") ++ ";" ++ String.mk g ++ ";"
        ++ joinWith " " (rest.dropLast.map String.mk) ++ ";;", ?_⟩
    simp [String.append_assoc]

/-- Unless the phone field is an empty array, the `TEL` block opens with a
`WORK,PREF`-typed line (an absent phone prints as `undefined`). -/
theorem telLines_head (f : JField) (h : f ≠ .many []) :
    ∃ x rest2, telLines f = ("TEL;TYPE=WORK,PREF:" ++ x) :: rest2 := by
  cases f with
  | undef => exact ⟨"undefined", [], rfl⟩
  | one s => exact ⟨s, [], rfl⟩
  | many l =>
    cases l with
    | nil => exact absurd rfl h
    | cons y ys =>
      exact ⟨y, typedLines "TEL;TYPE=WORK,PREF:" "TEL;TYPE=CELL:" 1 (ys.map some), rfl⟩

/-- Unless the email field is an empty array, the `EMAIL` block opens with
a `WORK,PREF`-typed line. -/
theorem emailLines_head (f : JField) (h : f ≠ .many []) :
    ∃ x rest2, vcfEmailLines f = ("EMAIL;TYPE=WORK,PREF:" ++ x) :: rest2 := by
  cases f with
  | undef => exact ⟨"undefined", [], rfl⟩
  | one s => exact ⟨s, [], rfl⟩
  | many l =>
    cases l with
    | nil => exact absurd rfl h
    | cons y ys =>
      exact ⟨y, typedLines "EMAIL;TYPE=WORK,PREF:" "EMAIL;TYPE=HOME:" 1 (ys.map some), rfl⟩

/-- Counterexample to claim C6 as stated: a profile with no name and empty
phone/email arrays produces a vCard with no `N`, no `TEL` and no `EMAIL`
line at all — the claimed fields are not present for every profile. -/
theorem c6_counterexample :
    generateVCard ⟨none, none, .many [], .many [], none, none, none⟩ =
      "BEGIN:VCARD\r\nVERSION:3.0\r\nFN:\r\nTITLE:\r\nORG:Hassan II Institute of Agronomy and Veterinary Medicine\r\nURL:https://\r\nADR:;;\r\nEND:VCARD" ∧
    (vcardLines ⟨none, none, .many [], .many [], none, none, none⟩).any
      (fun l => lineStarts "N:" l) = false ∧
    (vcardLines ⟨none, none, .many [], .many [], none, none, none⟩).any
      (fun l => lineStarts "TEL" l) = false ∧
    (vcardLines ⟨none, none, .many [], .many [], none, none, none⟩).any
      (fun l => lineStarts "EMAIL" l) = false := by
  refine ⟨?_, ?_, ?_, ?_⟩ <;> rfl

/-- Claim C6 as amended: for every profile with a truthy name and whose
phone and email fields are not empty arrays, the generated text is a vCard
3.0 record — its lines joined with CRLF — containing `BEGIN:VCARD`,
`VERSION:3.0`, `FN`, `N`, `TITLE`, `ORG`, `TEL;TYPE=...`, `EMAIL;TYPE=...`,
`URL`, `ADR` and `END:VCARD` lines.  (A falsy name drops the `N` line, and
an empty phone/email array drops its block.) -/
theorem c6_vcard_fields (p : Profile) (nm : String)
    (hname : p.name = some nm) (hnm : nm ≠ "")
    (hph : p.phone ≠ .many []) (hem : p.email ≠ .many []) :
    generateVCard p = joinWith CRLF (vcardLines p) ∧
    "BEGIN:VCARD" ∈ vcardLines p ∧
    "VERSION:3.0" ∈ vcardLines p ∧
    (vcardLines p).any (fun l => lineStarts "FN:" l) = true ∧
    (vcardLines p).any (fun l => lineStarts "N:" l) = true ∧
    (vcardLines p).any (fun l => lineStarts "TITLE:" l) = true ∧
    (vcardLines p).any (fun l => lineStarts "ORG:" l) = true ∧
    (vcardLines p).any (fun l => lineStarts "TEL;TYPE=" l) = true ∧
    (vcardLines p).any (fun l => lineStarts "EMAIL;TYPE=" l) = true ∧
    (vcardLines p).any (fun l => lineStarts "URL:" l) = true ∧
    (vcardLines p).any (fun l => lineStarts "ADR:" l) = true ∧
    "END:VCARD" ∈ vcardLines p := by
  obtain ⟨nx, hnx⟩ := nField_some_ne nm hnm
  obtain ⟨px, prest, hptel⟩ := telLines_head p.phone hph
  obtain ⟨ex, erest, heml⟩ := emailLines_head p.email hem
  have hnne : nField p.name ≠ "" := by
    rw [hname, hnx]
    exact ne_empty_of_left _ _ (by decide)
  refine ⟨generateVCard_eq_joinLines p, ?_⟩
  rw [vcardLines_expand, if_neg hnne, hptel, heml, hname, hnx]
  simp +decide [List.any_append, List.any_cons, List.mem_append, fn_starts, n_starts,
    title_starts, teltype_starts, emailtype_starts, url_starts, adr_starts]

/-- Witness for the amended claim C6 at a concrete full profile. -/
theorem c6_vcard_fields_witness :
    generateVCard sampleProfile = joinWith CRLF (vcardLines sampleProfile) ∧
    "BEGIN:VCARD" ∈ vcardLines sampleProfile ∧
    "VERSION:3.0" ∈ vcardLines sampleProfile ∧
    (vcardLines sampleProfile).any (fun l => lineStarts "FN:" l) = true ∧
    (vcardLines sampleProfile).any (fun l => lineStarts "N:" l) = true ∧
    (vcardLines sampleProfile).any (fun l => lineStarts "TITLE:" l) = true ∧
    (vcardLines sampleProfile).any (fun l => lineStarts "ORG:" l) = true ∧
    (vcardLines sampleProfile).any (fun l => lineStarts "TEL;TYPE=" l) = true ∧
    (vcardLines sampleProfile).any (fun l => lineStarts "EMAIL;TYPE=" l) = true ∧
    (vcardLines sampleProfile).any (fun l => lineStarts "URL:" l) = true ∧
    (vcardLines sampleProfile).any (fun l => lineStarts "ADR:" l) = true ∧
    "END:VCARD" ∈ vcardLines sampleProfile :=
  c6_vcard_fields sampleProfile "Jane Doe" rfl (by decide) (by decide) (by decide)

/-- Claim C10: `generateVCard` always emits a `URL` and an `ADR` line; the
website value is always prefixed with `https://`, and for an absent website
or location the lines are literally `URL:https://` and `ADR:;;` — missing
optional fields are not omitted from the export. -/
theorem c10_url_adr_always (p : Profile) :
    ("URL:https://" ++ jsOrEmpty p.website) ∈ vcardLines p ∧
    ("ADR:;;" ++ jsOrEmpty p.location) ∈ vcardLines p ∧
    (p.website = none → "URL:https://" ∈ vcardLines p) ∧
    (p.location = none → "ADR:;;" ∈ vcardLines p) ∧
    generateVCard p = joinWith CRLF (vcardLines p) := by
  refine ⟨?_, ?_, ?_, ?_, generateVCard_eq_joinLines p⟩
  · rw [vcardLines_expand]
    simp [List.mem_append]
  · rw [vcardLines_expand]
    simp [List.mem_append]
  · intro hw
    have hmem : ("URL:https://" ++ jsOrEmpty p.website) ∈ vcardLines p := by
      rw [vcardLines_expand]
      simp [List.mem_append]
    rw [hw] at hmem
    have hempty : jsOrEmpty (none : Option String) = "" := rfl
    rw [hempty, String.append_empty] at hmem
    exact hmem
  · intro hl
    have hmem : ("ADR:;;" ++ jsOrEmpty p.location) ∈ vcardLines p := by
      rw [vcardLines_expand]
      simp [List.mem_append]
    rw [hl] at hmem
    have hempty : jsOrEmpty (none : Option String) = "" := rfl
    rw [hempty, String.append_empty] at hmem
    exact hmem

/-- Witness for claim C10 at a profile with no website and no location. -/
theorem c10_url_adr_always_witness :
    "URL:https://" ∈ vcardLines ⟨some "Jane", some "T", .one "e", .one "p", none, none, none⟩ ∧
    "ADR:;;" ∈ vcardLines ⟨some "Jane", some "T", .one "e", .one "p", none, none, none⟩ :=
  ⟨(c10_url_adr_always ⟨some "Jane", some "T", .one "e", .one "p", none, none, none⟩).2.2.1 rfl,
   (c10_url_adr_always ⟨some "Jane", some "T", .one "e", .one "p", none, none, none⟩).2.2.2.1 rfl⟩

/-- The three views `renderCard` can produce: the select-a-profile listing,
the not-found listing, or the business card itself. -/
inductive View where
  | selectList : List (String × Profile) → View
  | notFoundList : List (String × Profile) → View
  | card : String → Profile → View
deriving DecidableEq

/-- The listing both error views render: every identifier of the directory
paired with its loaded record, profiles that fail to load skipped (the
template maps them to an empty string). -/
def profileListing (load : String → Option Profile) (avail : List String) :
    List (String × Profile) :=
  avail.filterMap fun id => (load id).map fun p => (id, p)

/-- Function `renderCard` from `app.js` as a view function: a falsy
identifier gives the select listing; an identifier whose record fails to
load gives the not-found listing; otherwise the card.  `load` abstracts
what `loadProfile` yields per identifier (stable within one render, since
the fetch world is fixed). -/
def renderCardView (load : String → Option Profile) (avail : List String)
    (profileId : Option String) : View :=
  match profileId with
  | none => .selectList (profileListing load avail)
  | some id =>
    if id = "" then .selectList (profileListing load avail)
    else
      match load id with
      | none => .notFoundList (profileListing load avail)
      | some p => .card id p

/-- Claim C8: for an identifier that is absent from the directory (hence
has no fetchable record) and is matched by no alias, `renderCard` produces
the not-found listing view — the heading plus the list of all known
profiles — and, being a total view function, raises no exception. -/
theorem c8_not_found (load : String → Option Profile) (avail : List String)
    (id : String) (hid : id ≠ "") (_habsent : avail.contains id = false)
    (hload : load id = none) :
    renderCardView load avail (some id) =
      View.notFoundList (profileListing load avail) := by
  simp [renderCardView, hid, hload]

/-- Witness for claim C8: an unknown identifier over a one-entry directory
renders the not-found listing. -/
theorem c8_not_found_witness :
    renderCardView (fun id => if id = "director" then some sampleProfile else none)
      ["director"] (some "ghost") =
      View.notFoundList (profileListing
        (fun id => if id = "director" then some sampleProfile else none) ["director"]) :=
  c8_not_found _ ["director"] "ghost" (by decide) (by decide) rfl

/-- The honorific tokens `getInitials` strips from the front of a name. -/
def FALLBACK_PREFIXES : List String :=
  ["pr", "pr.", "prof", "prof.", "professeur", "professor",
   "dr", "dr.", "mr", "mr.", "mrs", "mrs.", "ms", "ms."]

/-- JS `word.charAt(0).toUpperCase()`: first character upper-cased, the
empty string for an empty word. -/
def charAt0Upper (w : List Char) : String :=
  match w with
  | [] => ""
  | c :: _ => String.mk [c.toUpper]

/-- The `while`-shift loop of `getInitials`: drop known honorific tokens
from the front (compared lower-cased). -/
def dropNamePrefixes : List (List Char) → List (List Char)
  | [] => []
  | w :: rest =>
    if FALLBACK_PREFIXES.contains (String.mk (w.map Char.toLower)) then
      dropNamePrefixes rest
    else w :: rest

/-- The word list `getInitials` works on:
`String(name || '').trim().split(/\s+/).filter(Boolean)`. -/
def wordsOf (name : Option String) : List (List Char) :=
  (jsSplitWs (jsTrim (jsOrEmpty name).data)).filter (fun w => w ≠ [])

/-- Function `getInitials` from `app.js`: `??` for a blank name or when
only honorifics remain; the upper-cased initial for a single word; the
first and last initials joined with a dot otherwise. -/
def getInitials (name : Option String) : String :=
  let raw := jsTrim (jsOrEmpty name).data
  if raw = [] then "??"
  else
    match dropNamePrefixes ((jsSplitWs raw).filter (fun w => w ≠ [])) with
    | [] => "??"
    | [w] => charAt0Upper w
    | w :: rest => charAt0Upper w ++ "." ++ charAt0Upper (rest.getLastD [])

theorem dropNamePrefixes_mem :
    ∀ (l : List (List Char)) (w : List Char), w ∈ dropNamePrefixes l → w ∈ l := by
  intro l
  induction l with
  | nil => intro w h; simp [dropNamePrefixes] at h
  | cons a rest ih =>
    intro w h
    rw [dropNamePrefixes] at h
    split at h
    · exact List.mem_cons_of_mem a (ih w h)
    · exact h

theorem wordsOf_ne_nil (name : Option String) : ∀ w ∈ wordsOf name, w ≠ [] := by
  intro w hw
  have := List.mem_filter.mp hw
  simpa using this.2

theorem charAt0Upper_ne (w : List Char) (h : w ≠ []) : charAt0Upper w ≠ "" := by
  cases w with
  | nil => exact absurd rfl h
  | cons c t =>
    intro hc
    have hdata : ([c.toUpper] : List Char) = [] := congrArg String.data hc
    exact List.noConfusion hdata

theorem dot_append_ne (x y : String) : x ++ "." ++ y ≠ "" := by
  intro h
  have hdata := congrArg String.data h
  simp [data_append] at hdata

/-- Claim C9: `getInitials` is total and never returns the empty string:
blank names (including `undefined`, empty, whitespace-only) and names that
are only honorific tokens give `??`; a single remaining word gives its
upper-cased initial; two or more remaining words give the first and last
initials joined with a dot. -/
theorem c9_initials (name : Option String) :
    getInitials name ≠ "" ∧
    (dropNamePrefixes (wordsOf name) = [] → getInitials name = "??") ∧
    (∀ w, dropNamePrefixes (wordsOf name) = [w] → getInitials name = charAt0Upper w) ∧
    (∀ w ws, dropNamePrefixes (wordsOf name) = w :: ws → ws ≠ [] →
      getInitials name = charAt0Upper w ++ "." ++ charAt0Upper (ws.getLastD [])) := by
  by_cases hraw : jsTrim (jsOrEmpty name).data = []
  · have hw : wordsOf name = [] := by
      rw [wordsOf, hraw]
      rfl
    have hg : getInitials name = "??" := by rw [getInitials, if_pos hraw]
    refine ⟨by rw [hg]; decide, fun _ => hg, ?_, ?_⟩
    · intro w h
      rw [hw] at h
      simp [dropNamePrefixes] at h
    · intro w ws h _
      rw [hw] at h
      simp [dropNamePrefixes] at h
  · have hg : getInitials name =
        (match dropNamePrefixes (wordsOf name) with
          | [] => "??"
          | [w] => charAt0Upper w
          | w :: rest => charAt0Upper w ++ "." ++ charAt0Upper (rest.getLastD [])) := by
      rw [getInitials, if_neg hraw]
      rfl
    cases hd : dropNamePrefixes (wordsOf name) with
    | nil =>
      rw [hd] at hg
      refine ⟨by rw [hg]; decide, fun _ => hg, ?_, ?_⟩
      · intro w h
        exact List.noConfusion h
      · intro w ws h _
        exact List.noConfusion h
    | cons w ws =>
      have hwne : w ≠ [] :=
        wordsOf_ne_nil name w
          (dropNamePrefixes_mem (wordsOf name) w (by rw [hd]; exact List.mem_cons_self w ws))
      cases ws with
      | nil =>
        rw [hd] at hg
        refine ⟨by rw [hg]; exact charAt0Upper_ne w hwne, ?_, ?_, ?_⟩
        · intro h
          exact List.noConfusion h
        · intro w2 h
          cases h
          exact hg
        · intro w2 ws2 h hne2
          cases h
          exact absurd rfl hne2
      | cons w2 ws2 =>
        rw [hd] at hg
        refine ⟨by rw [hg]; exact dot_append_ne _ _, ?_, ?_, ?_⟩
        · intro h
          exact List.noConfusion h
        · intro w3 h
          exact List.noConfusion (List.cons.inj h).2
        · intro w3 ws3 h _
          cases h
          exact hg

/-- Witness for claim C9 at a concrete honorific-laden name. -/
theorem c9_initials_witness :
    getInitials (some "Dr. Ada King Lovelace") ≠ "" ∧
    getInitials (some "Dr. Ada King Lovelace") = "A.L" := by
  have h := c9_initials (some "Dr. Ada King Lovelace")
  refine ⟨h.1, ?_⟩
  have happ := h.2.2.2 "Ada".data ["King".data, "Lovelace".data] (by decide) (by decide)
  rw [happ]
  decide

/-- CRLF joining at the character level. -/
def joinD : List (List Char) → List Char
  | [] => []
  | [x] => x
  | x :: y :: t => x ++ '\r' :: '\n' :: joinD (y :: t)

theorem joinWith_data :
    ∀ l : List String, (joinWith CRLF l).data = joinD (l.map String.data) := by
  intro l
  induction l with
  | nil => rfl
  | cons x t ih =>
    cases t with
    | nil => rfl
    | cons y t2 =>
      show (x ++ CRLF ++ joinWith CRLF (y :: t2)).data = _
      rw [data_append, data_append, ih]
      simp [joinD, CRLF, List.append_assoc]

/-- Splitting a concatenation at the first carriage return: when neither
head block contains one, the heads and tails agree. -/
theorem cr_split :
    ∀ a b x y : List Char, '\r' ∉ a → '\r' ∉ b →
      a ++ '\r' :: x = b ++ '\r' :: y → a = b ∧ x = y := by
  intro a
  induction a with
  | nil =>
    intro b x y _ hb h
    cases b with
    | nil => simpa using h
    | cons c bt =>
      rw [List.nil_append, List.cons_append] at h
      have hc : '\r' = c := (List.cons.inj h).1
      exact absurd (List.mem_cons.mpr (Or.inl hc)) hb
  | cons d at2 ih =>
    intro b x y ha hb h
    cases b with
    | nil =>
      rw [List.cons_append, List.nil_append] at h
      have hd : d = '\r' := (List.cons.inj h).1
      exact absurd (List.mem_cons.mpr (Or.inl hd.symm)) ha
    | cons e bt =>
      rw [List.cons_append, List.cons_append] at h
      have hde : d = e := (List.cons.inj h).1
      have htail := (List.cons.inj h).2
      obtain ⟨h1, h2⟩ := ih bt x y
        (fun hm => ha (List.mem_cons_of_mem d hm))
        (fun hm => hb (List.mem_cons_of_mem e hm)) htail
      exact ⟨by rw [hde, h1], h2⟩

/-- CRLF joining is injective on equal-length lists of CR-free blocks. -/
theorem joinD_inj :
    ∀ l1 l2 : List (List Char), l1.length = l2.length →
      (∀ s ∈ l1, '\r' ∉ s) → (∀ s ∈ l2, '\r' ∉ s) → joinD l1 = joinD l2 → l1 = l2 := by
  intro l1
  induction l1 with
  | nil =>
    intro l2 hlen _ _ _
    cases l2 with
    | nil => rfl
    | cons y t2 => simp at hlen
  | cons x t ih =>
    intro l2 hlen h1 h2 hj
    cases l2 with
    | nil => simp at hlen
    | cons y t2 =>
      cases t with
      | nil =>
        cases t2 with
        | nil =>
          simp only [joinD] at hj
          rw [hj]
        | cons y2 tt2 => simp at hlen
      | cons x2 tt =>
        cases t2 with
        | nil => simp at hlen
        | cons y2 tt2 =>
          simp only [joinD] at hj
          obtain ⟨hxy, htail⟩ :=
            cr_split x y _ _ (h1 x (by simp)) (h2 y (by simp)) hj
          have hrest : joinD (x2 :: tt) = joinD (y2 :: tt2) := (List.cons.inj htail).2
          have hlen2 : (x2 :: tt).length = (y2 :: tt2).length := by
            simpa using hlen
          have := ih (y2 :: tt2) hlen2
            (fun s hs => h1 s (List.mem_cons_of_mem x hs))
            (fun s hs => h2 s (List.mem_cons_of_mem y hs)) hrest
          rw [hxy, this]

/-- Words produced by the whitespace split contain no whitespace — in
particular no carriage return. -/
theorem jsSplitWs_no_space :
    ∀ (l : List Char) (seg : List Char), seg ∈ jsSplitWs l →
      ∀ c ∈ seg, jsIsSpace c = false := by
  intro l
  induction l with
  | nil =>
    intro seg hseg c hc
    simp [jsSplitWs] at hseg
    subst hseg
    simp at hc
  | cons a rest ih =>
    intro seg hseg c hc
    rw [jsSplitWs_cons] at hseg
    by_cases ha : jsIsSpace a
    · rw [if_pos ha] at hseg
      cases rest with
      | nil =>
        rcases List.mem_cons.mp hseg with h | h
        · subst h; simp at hc
        · simp at h; subst h; simp at hc
      | cons a2 rest2 =>
        have hseg2 : seg ∈ (if jsIsSpace a2 = true then jsSplitWs (a2 :: rest2)
            else [] :: jsSplitWs (a2 :: rest2)) := hseg
        by_cases ha2 : jsIsSpace a2
        · rw [if_pos ha2] at hseg2
          exact ih seg hseg2 c hc
        · rw [if_neg ha2] at hseg2
          rcases List.mem_cons.mp hseg2 with h | h
          · subst h; simp at hc
          · exact ih seg h c hc
    · rw [if_neg ha] at hseg
      cases hrec : jsSplitWs rest with
      | nil =>
        rw [hrec] at hseg
        simp at hseg
        subst hseg
        rcases List.mem_cons.mp hc with rfl | h
        · simpa using ha
        · simp at h
      | cons seg2 segs =>
        rw [hrec] at hseg
        rcases List.mem_cons.mp hseg with h | h
        · subst h
          rcases List.mem_cons.mp hc with rfl | hc2
          · simpa using ha
          · exact ih seg2 (by rw [hrec]; exact List.mem_cons_self _ _) c hc2
        · exact ih seg (by rw [hrec]; exact List.mem_cons_of_mem _ h) c hc

theorem crFree_append (a b : String)
    (ha : '\r' ∉ a.data) (hb : '\r' ∉ b.data) : '\r' ∉ (a ++ b).data := by
  rw [data_append]
  intro hmem
  rcases List.mem_append.mp hmem with h | h
  · exact ha h
  · exact hb h

theorem joinWith_space_crFree :
    ∀ L : List String, (∀ s ∈ L, '\r' ∉ s.data) → '\r' ∉ (joinWith " " L).data := by
  intro L
  induction L with
  | nil => intro _; simp [joinWith]
  | cons x t ih =>
    intro h
    cases t with
    | nil => exact h x (by simp)
    | cons y t2 =>
      show '\r' ∉ (x ++ " " ++ joinWith " " (y :: t2)).data
      refine crFree_append _ _ (crFree_append _ _ (h x (by simp)) (by decide)) ?_
      exact ih (fun s hs => h s (List.mem_cons_of_mem x hs))

/-- The `N` field never contains a carriage return: its pieces are
whitespace-split words of the name, joined with plain separators. -/
theorem nField_crFree (o : Option String) : '\r' ∉ (nField o).data := by
  cases o with
  | none => simp [nField]
  | some nm =>
    by_cases hnm : nm = ""
    · simp [nField, hnm]
    · rw [nField, if_neg hnm]
      cases hsplit : jsSplitWs (jsTrim nm.data) with
      | nil => decide
      | cons g rest =>
        have hword : ∀ w ∈ g :: rest, '\r' ∉ w := by
          intro w hw hmem
          have := jsSplitWs_no_space (jsTrim nm.data) w (by rw [hsplit]; exact hw) '\r' hmem
          simp [jsIsSpace] at this
        have hfam : '\r' ∉ ((match rest.getLast? with
            | some f => String.mk f
            | none => "") : String).data := by
          cases hlast : rest.getLast? with
          | none => decide
          | some f =>
            exact hword f (List.mem_cons_of_mem g (List.mem_of_mem_getLast? hlast))
        have hgiv : '\r' ∉ (String.mk g).data := hword g (List.mem_cons_self g rest)
        have hadd : '\r' ∉ (joinWith " " (rest.dropLast.map String.mk)).data := by
          refine joinWith_space_crFree _ ?_
          intro s hs
          rcases List.mem_map.mp hs with ⟨w, hw, rfl⟩
          exact hword w (List.mem_cons_of_mem g ((List.dropLast_sublist rest).subset hw))
        exact crFree_append _ _ (crFree_append _ _ (crFree_append _ _ (crFree_append _ _
          (crFree_append _ _ (crFree_append _ _ (by decide) hfam) (by decide)) hgiv)
          (by decide)) hadd) (by decide)

/-- With a truthy name and single-valued contact fields, the vCard has
exactly these eleven lines. -/
theorem vcardLines_single (p : Profile) (n t ph em : String)
    (hname : p.name = some n) (hn : n ≠ "") (htitle : p.title = some t)
    (hph : p.phone = .one ph) (hem : p.email = .one em) :
    vcardLines p =
      ["BEGIN:VCARD", "VERSION:3.0", "FN:" ++ n, nField (some n), "TITLE:" ++ t, orgLine,
       "TEL;TYPE=WORK,PREF:" ++ ph, "EMAIL;TYPE=WORK,PREF:" ++ em,
       "URL:https://" ++ jsOrEmpty p.website, "ADR:;;" ++ jsOrEmpty p.location,
       "END:VCARD"] := by
  have hnne : nField p.name ≠ "" := by
    obtain ⟨nx, hnx⟩ := nField_some_ne n hn
    rw [hname, hnx]
    exact ne_empty_of_left _ _ (by decide)
  rw [vcardLines_expand, if_neg hnne, hname, htitle, hph, hem]
  rfl

/-- Claim C7: `generateVCard` is injective on the (name, title, phone,
email) tuple for well-formed profiles — a truthy name and single-valued,
carriage-return-free fields.  Distinct tuples give distinct vCard texts:
no information is dropped for single-valued fields. -/
theorem c7_injective (p₁ p₂ : Profile) (n₁ t₁ ph₁ em₁ n₂ t₂ ph₂ em₂ : String)
    (hname₁ : p₁.name = some n₁) (htitle₁ : p₁.title = some t₁)
    (hphone₁ : p₁.phone = .one ph₁) (hemail₁ : p₁.email = .one em₁)
    (hname₂ : p₂.name = some n₂) (htitle₂ : p₂.title = some t₂)
    (hphone₂ : p₂.phone = .one ph₂) (hemail₂ : p₂.email = .one em₂)
    (hwf₁ : n₁ ≠ "" ∧ '\r' ∉ n₁.data ∧ '\r' ∉ t₁.data ∧ '\r' ∉ ph₁.data ∧ '\r' ∉ em₁.data ∧
      '\r' ∉ (jsOrEmpty p₁.website).data ∧ '\r' ∉ (jsOrEmpty p₁.location).data)
    (hwf₂ : n₂ ≠ "" ∧ '\r' ∉ n₂.data ∧ '\r' ∉ t₂.data ∧ '\r' ∉ ph₂.data ∧ '\r' ∉ em₂.data ∧
      '\r' ∉ (jsOrEmpty p₂.website).data ∧ '\r' ∉ (jsOrEmpty p₂.location).data)
    (hne : (n₁, t₁, ph₁, em₁) ≠ (n₂, t₂, ph₂, em₂)) :
    generateVCard p₁ ≠ generateVCard p₂ := by
  obtain ⟨hne₁, hcrn₁, hcrt₁, hcrp₁, hcre₁, hcrw₁, hcrl₁⟩ := hwf₁
  obtain ⟨hne₂, hcrn₂, hcrt₂, hcrp₂, hcre₂, hcrw₂, hcrl₂⟩ := hwf₂
  intro heq
  rw [generateVCard_eq_joinLines, generateVCard_eq_joinLines,
    vcardLines_single p₁ n₁ t₁ ph₁ em₁ hname₁ hne₁ htitle₁ hphone₁ hemail₁,
    vcardLines_single p₂ n₂ t₂ ph₂ em₂ hname₂ hne₂ htitle₂ hphone₂ hemail₂] at heq
  have hdata := congrArg String.data heq
  rw [joinWith_data, joinWith_data] at hdata
  have hcf₁ : ∀ s ∈ (["BEGIN:VCARD", "VERSION:3.0", "FN:" ++ n₁, nField (some n₁),
      "TITLE:" ++ t₁, orgLine, "TEL;TYPE=WORK,PREF:" ++ ph₁, "EMAIL;TYPE=WORK,PREF:" ++ em₁,
      "URL:https://" ++ jsOrEmpty p₁.website, "ADR:;;" ++ jsOrEmpty p₁.location,
      "END:VCARD"].map String.data), '\r' ∉ s := by
    intro s hs
    simp only [List.map_cons, List.map_nil, List.mem_cons, List.not_mem_nil, or_false] at hs
    rcases hs with rfl | rfl | rfl | rfl | rfl | rfl | rfl | rfl | rfl | rfl | rfl
    · decide
    · decide
    · exact crFree_append "FN:" n₁ (by decide) hcrn₁
    · exact nField_crFree (some n₁)
    · exact crFree_append "TITLE:" t₁ (by decide) hcrt₁
    · decide
    · exact crFree_append "TEL;TYPE=WORK,PREF:" ph₁ (by decide) hcrp₁
    · exact crFree_append "EMAIL;TYPE=WORK,PREF:" em₁ (by decide) hcre₁
    · exact crFree_append "URL:https://" _ (by decide) hcrw₁
    · exact crFree_append "ADR:;;" _ (by decide) hcrl₁
    · decide
  have hcf₂ : ∀ s ∈ (["BEGIN:VCARD", "VERSION:3.0", "FN:" ++ n₂, nField (some n₂),
      "TITLE:" ++ t₂, orgLine, "TEL;TYPE=WORK,PREF:" ++ ph₂, "EMAIL;TYPE=WORK,PREF:" ++ em₂,
      "URL:https://" ++ jsOrEmpty p₂.website, "ADR:;;" ++ jsOrEmpty p₂.location,
      "END:VCARD"].map String.data), '\r' ∉ s := by
    intro s hs
    simp only [List.map_cons, List.map_nil, List.mem_cons, List.not_mem_nil, or_false] at hs
    rcases hs with rfl | rfl | rfl | rfl | rfl | rfl | rfl | rfl | rfl | rfl | rfl
    · decide
    · decide
    · exact crFree_append "FN:" n₂ (by decide) hcrn₂
    · exact nField_crFree (some n₂)
    · exact crFree_append "TITLE:" t₂ (by decide) hcrt₂
    · decide
    · exact crFree_append "TEL;TYPE=WORK,PREF:" ph₂ (by decide) hcrp₂
    · exact crFree_append "EMAIL;TYPE=WORK,PREF:" em₂ (by decide) hcre₂
    · exact crFree_append "URL:https://" _ (by decide) hcrw₂
    · exact crFree_append "ADR:;;" _ (by decide) hcrl₂
    · decide
  have hlists := joinD_inj _ _ (by simp) hcf₁ hcf₂ hdata
  have hFN : ("FN:" ++ n₁).data = ("FN:" ++ n₂).data :=
    Option.some.inj (congrArg (fun l => l[2]?) hlists)
  have hTI : ("TITLE:" ++ t₁).data = ("TITLE:" ++ t₂).data :=
    Option.some.inj (congrArg (fun l => l[4]?) hlists)
  have hTEL : ("TEL;TYPE=WORK,PREF:" ++ ph₁).data = ("TEL;TYPE=WORK,PREF:" ++ ph₂).data :=
    Option.some.inj (congrArg (fun l => l[6]?) hlists)
  have hEM : ("EMAIL;TYPE=WORK,PREF:" ++ em₁).data = ("EMAIL;TYPE=WORK,PREF:" ++ em₂).data :=
    Option.some.inj (congrArg (fun l => l[7]?) hlists)
  rw [data_append, data_append] at hFN hTI hTEL hEM
  have hn : n₁ = n₂ := String.ext (List.append_cancel_left hFN)
  have ht : t₁ = t₂ := String.ext (List.append_cancel_left hTI)
  have hp : ph₁ = ph₂ := String.ext (List.append_cancel_left hTEL)
  have he : em₁ = em₂ := String.ext (List.append_cancel_left hEM)
  exact hne (by rw [hn, ht, hp, he])

/-- Witness for claim C7: two concrete well-formed profiles with different
titles have different vCards. -/
theorem c7_injective_witness :
    generateVCard ⟨some "Jane Doe", some "Director", .one "j@x.org", .one "+1", none, none,
        none⟩ ≠
      generateVCard ⟨some "Jane Doe", some "Deputy", .one "j@x.org", .one "+1", none, none,
        none⟩ :=
  c7_injective _ _ "Jane Doe" "Director" "+1" "j@x.org" "Jane Doe" "Deputy" "+1" "j@x.org"
    rfl rfl rfl rfl rfl rfl rfl rfl
    (by refine ⟨by decide, by decide, by decide, by decide, by decide, by decide, by decide⟩)
    (by refine ⟨by decide, by decide, by decide, by decide, by decide, by decide, by decide⟩)
    (by decide)

end BusinessCard
